import Mathlib

/-!
Shallow embedding of the crypto-tracker-api repository (src/models.py,
src/crud.py, src/main.py) and proofs about its watchlist, price-sync,
registration, authentication and price-history operations.

The relational store (SQLite via SQLAlchemy) is modelled as lists of rows
in insertion order; autoincrement primary keys are modelled as
max-existing-id + 1; `query(...).filter(...).first()` is `List.find?`;
`order_by(timestamp.desc())` is an insertion sort by descending timestamp;
DateTime values are naturals supplied by an explicit clock parameter.
Prices (Python floats that are only stored and echoed, never computed
with) are carried as integers.
-/

/-- A row of the `users` table (src/models.py, class User). -/
structure UserRow where
  id : Nat
  username : String
  email : String
  hashed_password : String
  created_at : Nat
deriving Repr, DecidableEq

/-- A row of the `coins` table (src/models.py, class Coin). -/
structure CoinRow where
  id : Nat
  name : String
  symbol : String
deriving Repr, DecidableEq

/-- A row of the `price_history` table (src/models.py, class PriceHistory).
The three optional columns are never set by the code (src/crud.py
`add_price` writes only `coin_id` and `price`). -/
structure PriceRow where
  id : Nat
  coin_id : Nat
  price : Int
  volume_24h : Option Int
  change_24h : Option Int
  market_cap : Option Int
  timestamp : Nat
deriving Repr, DecidableEq

/-- The whole database: the four tables of src/models.py, rows in
insertion order.  `user_coins` is the many-to-many association table
(user_id, coin_id); it has no uniqueness constraint in the source. -/
structure DB where
  users : List UserRow
  coins : List CoinRow
  user_coins : List (Nat × Nat)
  price_history : List PriceRow
deriving Repr, DecidableEq

/-- Modelled from the spec: src/ does not contain auth.py, whose
`get_password_hash` is called by `create_user` (src/crud.py line 16).
Spec section 4.2: `hash(plaintext) -> digest`, a one-way hash.  Modelled
as a deterministic injective tagging; one-wayness is not representable
and is not used by any claim. -/
def get_password_hash (plaintext : String) : String :=
  "hash:" ++ plaintext

/-- Modelled from the spec: src/ does not contain auth.py, whose
`verify_password` is called by `authenticate_user` (src/crud.py line 27).
Spec section 4.2: `verify(plaintext, digest) -> bool`. -/
def verify_password (plaintext digest : String) : Bool :=
  digest == get_password_hash plaintext

/-- src/crud.py `get_user_by_username`: first users row with that
username. -/
def get_user_by_username (db : DB) (username : String) : Option UserRow :=
  db.users.find? (fun u => u.username == username)

/-- src/crud.py `get_user_by_email`: first users row with that email. -/
def get_user_by_email (db : DB) (email : String) : Option UserRow :=
  db.users.find? (fun u => u.email == email)

/-- Autoincrement primary key for the users table: one more than the
greatest existing id. -/
def freshUserId (db : DB) : Nat :=
  db.users.foldr (fun u m => max u.id m) 0 + 1

/-- src/crud.py `create_user`: hash the password, insert the row, return
it.  `created_at` defaults to the current time (src/models.py line 31). -/
def create_user (db : DB) (username email password : String) (now : Nat) :
    DB × UserRow :=
  let db_user : UserRow :=
    ⟨freshUserId db, username, email, get_password_hash password, now⟩
  ({ db with users := db.users ++ [db_user] }, db_user)

/-- src/crud.py `authenticate_user`: look up by username; `False`
(here `none`) if no user or the password does not verify, the user
otherwise. -/
def authenticate_user (db : DB) (username password : String) :
    Option UserRow :=
  match get_user_by_username db username with
  | none => none
  | some user =>
    if verify_password password user.hashed_password then some user
    else none

/-- src/crud.py `add_coin_to_user`: fetch user and coin by id; `None` if
either is missing; otherwise append the pair to the association list
(`user.coins.append(coin)`) and return the id pair.  The append is
unconditional: nothing checks whether the pair is already present. -/
def add_coin_to_user (db : DB) (user_id coin_id : Nat) :
    DB × Option (Nat × Nat) :=
  match db.users.find? (fun u => u.id == user_id),
        db.coins.find? (fun c => c.id == coin_id) with
  | some user, some coin =>
    ({ db with user_coins := db.user_coins ++ [(user.id, coin.id)] },
     some (user_id, coin_id))
  | _, _ => (db, none)

/-- Outcome of src/crud.py `remove_coin_from_user`: `None` (missing user
or coin), success, or an uncaught Python `ValueError` raised by
`user.coins.remove(coin)` when the coin is not in the list. -/
inductive RemoveOutcome where
  | notFound
  | removed (pair : Nat × Nat)
  | valueError
deriving Repr, DecidableEq

/-- src/crud.py `remove_coin_from_user`: fetch user and coin by id;
`None` if either is missing; otherwise `user.coins.remove(coin)` —
Python `list.remove` deletes the first occurrence and raises
`ValueError` when the element is absent.  No try/except surrounds it. -/
def remove_coin_from_user (db : DB) (user_id coin_id : Nat) :
    DB × RemoveOutcome :=
  match db.users.find? (fun u => u.id == user_id),
        db.coins.find? (fun c => c.id == coin_id) with
  | some user, some coin =>
    if db.user_coins.any (fun p => p.1 == user.id && p.2 == coin.id) then
      ({ db with user_coins :=
          db.user_coins.eraseP (fun p => p.1 == user.id && p.2 == coin.id) },
       RemoveOutcome.removed (user_id, coin_id))
    else (db, RemoveOutcome.valueError)
  | _, _ => (db, RemoveOutcome.notFound)

/-- The ORM relationship `user.coins` (src/models.py line 34): the coins
reachable from the association rows of this user, in association-row
order. -/
def userCoins (db : DB) (user_id : Nat) : List CoinRow :=
  (db.user_coins.filter (fun p => p.1 == user_id)).filterMap
    (fun p => db.coins.find? (fun c => c.id == p.2))

/-- src/crud.py `get_user_coins`: empty when the user is missing,
otherwise `user.coins`. -/
def get_user_coins (db : DB) (user_id : Nat) : List CoinRow :=
  match db.users.find? (fun u => u.id == user_id) with
  | none => []
  | some user => userCoins db user.id

/-- src/crud.py `get_coin_by_name`: first coins row with that name. -/
def get_coin_by_name (db : DB) (name : String) : Option CoinRow :=
  db.coins.find? (fun c => c.name == name)

/-- Autoincrement primary key for the coins table. -/
def maxCoinId (coins : List CoinRow) : Nat :=
  coins.foldr (fun c m => max c.id m) 0

/-- src/crud.py `create_coin`: insert a coin row and return it. -/
def create_coin (db : DB) (name symbol : String) : DB × CoinRow :=
  let db_coin : CoinRow := ⟨maxCoinId db.coins + 1, name, symbol⟩
  ({ db with coins := db.coins ++ [db_coin] }, db_coin)

/-- Autoincrement primary key for the price_history table. -/
def freshPriceId (db : DB) : Nat :=
  db.price_history.foldr (fun r m => max r.id m) 0 + 1

/-- src/crud.py `add_price`: insert one PriceHistory row for the coin
with the given price, timestamp defaulted to the current time, optional
columns unset, and return it. -/
def add_price (db : DB) (coin : CoinRow) (price : Int) (now : Nat) :
    DB × PriceRow :=
  let db_price : PriceRow :=
    ⟨freshPriceId db, coin.id, price, none, none, none, now⟩
  ({ db with price_history := db.price_history ++ [db_price] }, db_price)

/-- The rows of `price_history` belonging to one coin, in insertion
order (the SQL filter `PriceHistory.coin_id == coin.id`). -/
def rowsForCoin (db : DB) (coin_id : Nat) : List PriceRow :=
  db.price_history.filter (fun r => r.coin_id == coin_id)

/-- Newest-first comparison used by `order_by(PriceHistory.timestamp.desc())`. -/
def tsGe (a b : PriceRow) : Prop :=
  b.timestamp ≤ a.timestamp

instance : DecidableRel tsGe := fun a b => Nat.decLe b.timestamp a.timestamp

instance : IsTotal PriceRow tsGe :=
  ⟨fun a b => Nat.le_total b.timestamp a.timestamp⟩

instance : IsTrans PriceRow tsGe :=
  ⟨fun _ _ _ hab hbc => Nat.le_trans hbc hab⟩

/-- `order_by(PriceHistory.timestamp.desc())`: the rows sorted by
descending timestamp. -/
def orderByTimestampDesc (rows : List PriceRow) : List PriceRow :=
  List.insertionSort tsGe rows

/-- One element of the list returned by src/crud.py `get_latest_prices`. -/
structure LatestEntry where
  name : String
  symbol : String
  price : Int
  timestamp : Nat
deriving Repr, DecidableEq

/-- src/crud.py `get_latest_prices`: for every coin, the first row of
its history ordered newest-first, when there is one. -/
def get_latest_prices (db : DB) : List LatestEntry :=
  db.coins.filterMap (fun coin =>
    match (orderByTimestampDesc (rowsForCoin db coin.id)).head? with
    | none => none
    | some latest =>
      some ⟨coin.name, coin.symbol, latest.price, latest.timestamp⟩)

/-- src/crud.py `get_price_history`: empty when the coin name is
unknown, otherwise the coin's rows ordered newest-first. -/
def get_price_history (db : DB) (coin_name : String) : List PriceRow :=
  match get_coin_by_name db coin_name with
  | none => []
  | some coin => orderByTimestampDesc (rowsForCoin db coin.id)

/-- src/crud.py `get_user_price_history`: empty when the user is
missing, the coin name unknown, or the coin not in `user.coins`;
otherwise the coin's rows ordered newest-first. -/
def get_user_price_history (db : DB) (user_id : Nat) (coin_name : String) :
    List PriceRow :=
  match db.users.find? (fun u => u.id == user_id) with
  | none => []
  | some user =>
    match get_coin_by_name db coin_name with
    | none => []
    | some coin =>
      if (userCoins db user.id).contains coin then
        orderByTimestampDesc (rowsForCoin db coin.id)
      else []

/-- An HTTP error response: FastAPI's HTTPException status and detail. -/
structure HttpError where
  status : Nat
  detail : String
deriving Repr, DecidableEq

/-- src/main.py `register_user` (POST /register): 400 if the username is
already registered, then 400 if the email is, otherwise create the
user. -/
def register_user (db : DB) (username email password : String) (now : Nat) :
    Except HttpError (DB × UserRow) :=
  match get_user_by_username db username with
  | some _ => Except.error ⟨400, "Username already registered"⟩
  | none =>
    match get_user_by_email db email with
    | some _ => Except.error ⟨400, "Email already registered"⟩
    | none => Except.ok (create_user db username email password now)

/-- src/main.py `add_coin_to_user` endpoint (POST /users/coins/...): 404
when crud returns `None`, success message otherwise. -/
def add_coin_endpoint (db : DB) (user_id coin_id : Nat) :
    DB × Except HttpError String :=
  match add_coin_to_user db user_id coin_id with
  | (db1, some _) => (db1, Except.ok "Coin added to user's tracking list")
  | (db1, none) => (db1, Except.error ⟨404, "Coin not found"⟩)

/-- src/main.py `remove_coin_from_user` endpoint (DELETE
/users/coins/...): 404 when crud returns `None`, success message on
removal; an uncaught `ValueError` from crud surfaces as FastAPI's
default 500 Internal Server Error. -/
def remove_coin_endpoint (db : DB) (user_id coin_id : Nat) :
    DB × Except HttpError String :=
  match remove_coin_from_user db user_id coin_id with
  | (db1, RemoveOutcome.removed _) =>
    (db1, Except.ok "Coin removed from user's tracking list")
  | (db1, RemoveOutcome.notFound) =>
    (db1, Except.error ⟨404, "Coin not found or not in user's tracking list"⟩)
  | (db1, RemoveOutcome.valueError) =>
    (db1, Except.error ⟨500, "Internal Server Error"⟩)

/-- One entry of the static COINS configuration of src/main.py: name,
symbol, and external feed identifier (the "id" key). -/
structure CoinCfg where
  name : String
  symbol : String
  fid : String
deriving Repr, DecidableEq

/-- The static COINS list of src/main.py lines 21-32. -/
def COINS : List CoinCfg :=
  [⟨"Bitcoin", "btc", "bitcoin"⟩,
   ⟨"Ethereum", "eth", "ethereum"⟩,
   ⟨"Cardano", "ada", "cardano"⟩,
   ⟨"Solana", "sol", "solana"⟩,
   ⟨"Binance Coin", "bnb", "binancecoin"⟩,
   ⟨"XRP", "xrp", "ripple"⟩,
   ⟨"Polkadot", "dot", "polkadot"⟩,
   ⟨"Dogecoin", "doge", "dogecoin"⟩,
   ⟨"Avalanche", "avax", "avalanche-2"⟩,
   ⟨"Chainlink", "link", "chainlink"⟩]

/-- A JSON object of numeric fields, as returned by the feed for one
coin (e.g. the object holding the "usd" price). -/
abbrev JsonObj := List (String × Int)

/-- The feed's JSON body: feed identifier to per-coin object. -/
abbrev FeedJson := List (String × JsonObj)

/-- The response of the outbound `requests.get` call in src/main.py
`update_prices`: HTTP status, raw text (used in the 502 detail), and
parsed JSON body. -/
structure FeedResponse where
  status_code : Nat
  text : String
  json : FeedJson
deriving Repr, DecidableEq

/-- One element of the "data" list returned by src/main.py
`update_prices`. -/
structure ResultEntry where
  name : String
  symbol : String
  price : Int
  timestamp : Nat
deriving Repr, DecidableEq

/-- The success body of src/main.py `update_prices`:
status, data, count. -/
structure SyncResult where
  status : String
  data : List ResultEntry
  count : Nat
deriving Repr, DecidableEq

/-- The body of the per-coin loop of src/main.py `update_prices` lines
142-171: `price_data = prices.get(coin_id, {})`; skip when it is empty
or has no "usd" key; otherwise get-or-create the coin, store the price,
and build the result entry. -/
def syncCoin (prices : FeedJson) (now : Nat) (db : DB) (c : CoinCfg) :
    DB × Option ResultEntry :=
  let price_data := (prices.lookup c.fid).getD []
  if price_data.isEmpty then (db, none)
  else
    match price_data.lookup "usd" with
    | none => (db, none)
    | some price =>
      let dc :=
        match get_coin_by_name db c.name with
        | some coin => (db, coin)
        | none => create_coin db c.name c.symbol
      let pr := add_price dc.1 dc.2 price now
      (pr.1, some ⟨c.name, c.symbol, pr.2.price, pr.2.timestamp⟩)

/-- The `for coin in COINS` loop of src/main.py `update_prices`,
threading the database and accumulating result entries in order. -/
def syncLoop (prices : FeedJson) (now : Nat) :
    DB → List CoinCfg → DB × List ResultEntry
  | db, [] => (db, [])
  | db, c :: cs =>
    match syncCoin prices now db c with
    | (db1, none) => syncLoop prices now db1 cs
    | (db1, some e) =>
      let rest := syncLoop prices now db1 cs
      (rest.1, e :: rest.2)

/-- src/main.py `update_prices` (POST /update): on a non-200 feed
response raise HTTPException 502 before touching the database;
otherwise run the per-coin loop and answer with the entries and their
count. -/
def update_prices (db : DB) (response : FeedResponse) (now : Nat) :
    DB × Except HttpError SyncResult :=
  if response.status_code != 200 then
    (db, Except.error
      ⟨502, "Failed to fetch from CoinGecko: " ++ response.text⟩)
  else
    let r := syncLoop response.json now db COINS
    (r.1, Except.ok ⟨"success", r.2, r.2.length⟩)

/-- src/main.py `get_price_history` endpoint (GET /prices/...): 404 on
an empty history. -/
def get_price_history_endpoint (db : DB) (coin_name : String) :
    Except HttpError (List PriceRow) :=
  let history := get_price_history db coin_name
  if history.isEmpty then
    Except.error ⟨404, "Coin not found or no price history"⟩
  else Except.ok history

/-- src/main.py `get_user_price_history` endpoint (GET
/users/prices/...): 404 on an empty result from crud. -/
def get_user_price_history_endpoint (db : DB) (user_id : Nat)
    (coin_name : String) : Except HttpError (List PriceRow) :=
  let history := get_user_price_history db user_id coin_name
  if history.isEmpty then
    Except.error ⟨404, "Coin not found, not tracked by user, or no price history"⟩
  else Except.ok history

/-- Number of association rows for one (user, coin) pair. -/
def pairCount (db : DB) (user_id coin_id : Nat) : Nat :=
  (db.user_coins.filter (fun p => p.1 == user_id && p.2 == coin_id)).length

/-- Whether the per-coin loop of `update_prices` processes (rather than
skips) the catalog coin with this feed identifier: the feed response
holds a non-empty object for it that has a "usd" field. -/
def usableEntry (prices : FeedJson) (fid : String) : Bool :=
  !((prices.lookup fid).getD []).isEmpty &&
    (((prices.lookup fid).getD []).lookup "usd").isSome

/-- The usd price the feed reports for a feed identifier (meaningful
when `usableEntry` holds). -/
def usdOf (prices : FeedJson) (fid : String) : Int :=
  (((prices.lookup fid).getD []).lookup "usd").getD 0

/-- The result entries `update_prices` reports on a successful sync:
one per catalog coin with a usable feed entry, in catalog order. -/
def updatedEntries (prices : FeedJson) (now : Nat) : List ResultEntry :=
  (COINS.filter (fun c => usableEntry prices c.fid)).map
    (fun c => ⟨c.name, c.symbol, usdOf prices c.fid, now⟩)

/-- The candidate rows the SQL query `order_by(timestamp.desc()).first()`
may return for a coin: the query has no secondary ordering key, so any
row attaining the greatest timestamp is an admissible first row. -/
def latestCandidates (db : DB) (coin_id : Nat) : List PriceRow :=
  (rowsForCoin db coin_id).filter
    (fun r => (rowsForCoin db coin_id).all (fun s => s.timestamp ≤ r.timestamp))

/-! ## Concrete stores used by witnesses and counterexamples -/

/-- A user row used in the concrete stores below. -/
def exUser : UserRow :=
  ⟨1, "alice", "alice@example.com", get_password_hash "pw1", 0⟩

/-- Store with one user, one coin, and the (1, 1) watchlist pair
present once. -/
def exDB1 : DB :=
  ⟨[exUser], [⟨1, "Bitcoin", "btc"⟩], [(1, 1)], []⟩

/-- Store with one user and one coin, watchlist empty. -/
def exDB2 : DB :=
  ⟨[exUser], [⟨1, "Bitcoin", "btc"⟩], [], []⟩

/-! ## C3 -/

/-- C3: on every non-200 feed response, POST /update answers a single
UpstreamFailure (HTTP 502 with the upstream text) and performs no
writes: the returned store is the input store, so the price ledger and
the coin catalog are unchanged. -/
theorem sync_aborts_on_upstream_failure (db : DB) (response : FeedResponse)
    (now : Nat) (h : response.status_code ≠ 200) :
    (update_prices db response now).1 = db ∧
    (update_prices db response now).1.price_history = db.price_history ∧
    (update_prices db response now).1.coins = db.coins ∧
    (update_prices db response now).2 =
      Except.error
        ⟨502, "Failed to fetch from CoinGecko: " ++ response.text⟩ := by
  unfold update_prices
  simp [h]

/-- Witness for C3 at a concrete store and a concrete 429 response. -/
theorem sync_aborts_on_upstream_failure_witness :
    (429 : Nat) ≠ 200 ∧
    ((update_prices exDB2 ⟨429, "rate limited", []⟩ 7).1 = exDB2 ∧
     (update_prices exDB2 ⟨429, "rate limited", []⟩ 7).1.price_history =
       exDB2.price_history ∧
     (update_prices exDB2 ⟨429, "rate limited", []⟩ 7).1.coins = exDB2.coins ∧
     (update_prices exDB2 ⟨429, "rate limited", []⟩ 7).2 =
       Except.error
         ⟨502, "Failed to fetch from CoinGecko: " ++ "rate limited"⟩) :=
  ⟨by decide, sync_aborts_on_upstream_failure exDB2 ⟨429, "rate limited", []⟩ 7
    (by decide)⟩

/-! ## C7 -/

/-- C7: authenticate returns the user when the username exists and the
password verifies; it returns `none` when the username is unknown and
`none` when the password is wrong, so the two failure causes produce
the very same value and are indistinguishable to the caller. -/
theorem authenticate_user_cases (db : DB) (username password : String) :
    (get_user_by_username db username = none →
      authenticate_user db username password = none) ∧
    (∀ u, get_user_by_username db username = some u →
      verify_password password u.hashed_password = false →
      authenticate_user db username password = none) ∧
    (∀ u, get_user_by_username db username = some u →
      verify_password password u.hashed_password = true →
      authenticate_user db username password = some u) ∧
    (∀ username2 password2,
      get_user_by_username db username = none →
      (∀ u, get_user_by_username db username2 = some u →
        verify_password password2 u.hashed_password = false) →
      authenticate_user db username password =
        authenticate_user db username2 password2) := by
  refine ⟨?_, ?_, ?_, ?_⟩
  · intro h
    simp [authenticate_user, h]
  · intro u hu hv
    simp [authenticate_user, hu, hv]
  · intro u hu hv
    simp [authenticate_user, hu, hv]
  · intro username2 password2 h1 h2
    cases h : get_user_by_username db username2 with
    | none => simp [authenticate_user, h1, h]
    | some u => simp [authenticate_user, h1, h, h2 u h]

/-- Witness for C7: in a concrete store, the right password yields the
user, a wrong password yields `none`, an unknown username yields
`none`, and the two failures are equal. -/
theorem authenticate_user_cases_witness :
    authenticate_user exDB2 "alice" "pw1" = some exUser ∧
    authenticate_user exDB2 "alice" "wrong" = none ∧
    authenticate_user exDB2 "bob" "pw1" = none ∧
    authenticate_user exDB2 "bob" "pw1" =
      authenticate_user exDB2 "alice" "wrong" :=
  ⟨(authenticate_user_cases exDB2 "alice" "pw1").2.2.1 exUser (by decide)
     (by decide),
   (authenticate_user_cases exDB2 "alice" "wrong").2.1 exUser (by decide)
     (by decide),
   (authenticate_user_cases exDB2 "bob" "pw1").1 (by decide),
   (authenticate_user_cases exDB2 "bob" "pw1").2.2.2 "alice" "wrong"
     (by decide)
     (fun u hu => by
       have h2 : get_user_by_username exDB2 "alice" = some exUser := by decide
       rw [h2] at hu
       cases hu
       decide)⟩

/-! ## C10 -/

/-- C10: when the username and the email both collide with existing
users, registration reports the duplicate-username error, because
src/main.py checks the username before the email. -/
theorem register_username_checked_before_email (db : DB)
    (username email password : String) (now : Nat)
    (hu : (get_user_by_username db username).isSome)
    (_he : (get_user_by_email db email).isSome) :
    register_user db username email password now =
      Except.error ⟨400, "Username already registered"⟩ := by
  unfold register_user
  cases h : get_user_by_username db username with
  | none => rw [h] at hu; simp at hu
  | some u => rfl

/-- Witness for C10: a store whose single user collides with the
requested username and email at once. -/
theorem register_username_checked_before_email_witness :
    (get_user_by_username exDB2 "alice").isSome ∧
    (get_user_by_email exDB2 "alice@example.com").isSome ∧
    register_user exDB2 "alice" "alice@example.com" "pw2" 3 =
      Except.error ⟨400, "Username already registered"⟩ :=
  ⟨by decide, by decide,
   register_username_checked_before_email exDB2 "alice" "alice@example.com"
     "pw2" 3 (by decide) (by decide)⟩

/-! ## C6 -/

/-- C6: registration fails with 400 when the username collides, fails
with 400 when the email collides, and otherwise persists a new user
with the hashed password, a server-assigned identifier and the creation
timestamp; a second registration of the same username then fails with
the duplicate error. -/
theorem register_user_spec (db : DB) (username email password : String)
    (now : Nat) :
    ((get_user_by_username db username).isSome →
      register_user db username email password now =
        Except.error ⟨400, "Username already registered"⟩) ∧
    (get_user_by_username db username = none →
      (get_user_by_email db email).isSome →
      register_user db username email password now =
        Except.error ⟨400, "Email already registered"⟩) ∧
    (get_user_by_username db username = none →
      get_user_by_email db email = none →
      ∃ u, register_user db username email password now =
          Except.ok ({ db with users := db.users ++ [u] }, u) ∧
        u.username = username ∧ u.email = email ∧
        u.hashed_password = get_password_hash password ∧
        u.created_at = now ∧ u.id = freshUserId db ∧
        u ∈ ({ db with users := db.users ++ [u] } : DB).users) ∧
    (∀ db1 u, register_user db username email password now =
        Except.ok (db1, u) →
      ∀ email2 password2 now2,
        register_user db1 username email2 password2 now2 =
          Except.error ⟨400, "Username already registered"⟩) := by
  refine ⟨?_, ?_, ?_, ?_⟩
  · intro hu
    obtain ⟨u, hu⟩ := Option.isSome_iff_exists.mp hu
    simp [register_user, hu]
  · intro hu he
    obtain ⟨e, he⟩ := Option.isSome_iff_exists.mp he
    simp [register_user, hu, he]
  · intro hu he
    refine ⟨⟨freshUserId db, username, email, get_password_hash password,
      now⟩, ?_, rfl, rfl, rfl, rfl, rfl, ?_⟩
    · simp [register_user, hu, he, create_user]
    · simp
  · intro db1 u hok email2 password2 now2
    cases hu : get_user_by_username db username with
    | some v => simp [register_user, hu] at hok
    | none =>
      cases he : get_user_by_email db email with
      | some v => simp [register_user, hu, he] at hok
      | none =>
        have hdb1 : db1.users = db.users ++
            [⟨freshUserId db, username, email, get_password_hash password,
              now⟩] := by
          simp [register_user, hu, he, create_user] at hok
          rw [← hok.1]
        have hfind : get_user_by_username db1 username =
            some ⟨freshUserId db, username, email,
              get_password_hash password, now⟩ := by
          unfold get_user_by_username
          rw [hdb1, List.find?_append]
          unfold get_user_by_username at hu
          rw [hu]
          simp
        simp [register_user, hfind]

/-- Witness for C6 at an empty store: registering alice succeeds and
persists the hashed password with a fresh id, and registering the same
username again fails with the duplicate error. -/
theorem register_user_spec_witness :
    (∃ u, register_user ⟨[], [], [], []⟩ "alice" "alice@example.com"
        "pw1" 0 =
        Except.ok ({ (⟨[], [], [], []⟩ : DB) with users := [] ++ [u] }, u) ∧
      u.username = "alice" ∧ u.email = "alice@example.com" ∧
      u.hashed_password = get_password_hash "pw1" ∧
      u.created_at = 0 ∧ u.id = freshUserId ⟨[], [], [], []⟩ ∧
      u ∈ ({ (⟨[], [], [], []⟩ : DB) with users := [] ++ [u] } : DB).users) ∧
    (∀ db1 u, register_user ⟨[], [], [], []⟩ "alice" "alice@example.com"
        "pw1" 0 = Except.ok (db1, u) →
      register_user db1 "alice" "bob@example.com" "pw2" 9 =
        Except.error ⟨400, "Username already registered"⟩) :=
  ⟨(register_user_spec ⟨[], [], [], []⟩ "alice" "alice@example.com" "pw1"
      0).2.2.1 (by decide) (by decide),
   fun db1 u hok =>
     (register_user_spec ⟨[], [], [], []⟩ "alice" "alice@example.com" "pw1"
       0).2.2.2 db1 u hok "bob@example.com" "pw2" 9⟩

/-- Store for the C5 witness: user 1 tracks Bitcoin (which has no
price rows); Ethereum exists with one public price row but is not
tracked. -/
def exDB5 : DB :=
  ⟨[exUser], [⟨1, "Bitcoin", "btc"⟩, ⟨2, "Ethereum", "eth"⟩], [(1, 1)],
   [⟨1, 2, 3000, none, none, none, 10⟩]⟩

/-! ## C5 -/

/-- C5: for an authenticated (hence existing) user, GET /users/prices
answers the same 404 error when the coin name is unknown, when the coin
is not on the caller's watchlist (regardless of any public history),
and when the coin is tracked but has no price rows — one identical
error value in all three cases, so they are indistinguishable. -/
theorem user_history_not_found_cases (db : DB) (user_id : Nat)
    (coin_name : String)
    (huser : (db.users.find? (fun u => u.id == user_id)).isSome) :
    (get_coin_by_name db coin_name = none →
      get_user_price_history_endpoint db user_id coin_name =
        Except.error
          ⟨404, "Coin not found, not tracked by user, or no price history"⟩) ∧
    (∀ coin, get_coin_by_name db coin_name = some coin →
      coin ∉ userCoins db user_id →
      get_user_price_history_endpoint db user_id coin_name =
        Except.error
          ⟨404, "Coin not found, not tracked by user, or no price history"⟩) ∧
    (∀ coin, get_coin_by_name db coin_name = some coin →
      rowsForCoin db coin.id = [] →
      get_user_price_history_endpoint db user_id coin_name =
        Except.error
          ⟨404, "Coin not found, not tracked by user, or no price history"⟩) := by
  obtain ⟨u, hu⟩ := Option.isSome_iff_exists.mp huser
  have hui : u.id = user_id := by
    have := List.find?_some hu
    simpa using this
  refine ⟨?_, ?_, ?_⟩
  · intro hc
    simp [get_user_price_history_endpoint, get_user_price_history, hu, hc]
  · intro coin hc htrack
    simp [get_user_price_history_endpoint, get_user_price_history, hu, hc,
      hui, htrack]
  · intro coin hc hrows
    simp [get_user_price_history_endpoint, get_user_price_history, hu, hc,
      hui, hrows, orderByTimestampDesc]

/-- Witness for C5: user 1 exists; "Nope" is unknown, "Ethereum" has
public history but is untracked, "Bitcoin" is tracked with no history —
all three requests yield the same 404 error. -/
theorem user_history_not_found_cases_witness :
    ((exDB5.users.find? (fun u => u.id == 1)).isSome) ∧
    get_user_price_history_endpoint exDB5 1 "Nope" =
      Except.error
        ⟨404, "Coin not found, not tracked by user, or no price history"⟩ ∧
    (rowsForCoin exDB5 2 ≠ [] ∧
     get_user_price_history_endpoint exDB5 1 "Ethereum" =
      Except.error
        ⟨404, "Coin not found, not tracked by user, or no price history"⟩) ∧
    get_user_price_history_endpoint exDB5 1 "Bitcoin" =
      Except.error
        ⟨404, "Coin not found, not tracked by user, or no price history"⟩ :=
  ⟨by decide,
   (user_history_not_found_cases exDB5 1 "Nope" (by decide)).1 (by decide),
   ⟨by decide,
    (user_history_not_found_cases exDB5 1 "Ethereum" (by decide)).2.1
      ⟨2, "Ethereum", "eth"⟩ (by decide) (by decide)⟩,
   (user_history_not_found_cases exDB5 1 "Bitcoin" (by decide)).2.2
     ⟨1, "Bitcoin", "btc"⟩ (by decide) (by decide)⟩

/-! ## C2 -/

/-- C2: counter to the claim, when user 1 and coin 1 both exist but the
pair was never on the watchlist, the crud remove hits `ValueError` from
`list.remove` (no try/except in src/crud.py lines 41-48), which
surfaces as HTTP 500, not as the 404 the endpoint's own detail string
promises; only the invalid-reference cases reach the 404 branch. -/
theorem remove_untracked_raises_value_error :
    (remove_coin_from_user exDB2 1 1).2 = RemoveOutcome.valueError ∧
    (remove_coin_endpoint exDB2 1 1).2 =
      Except.error ⟨500, "Internal Server Error"⟩ ∧
    (remove_coin_endpoint exDB2 1 1).2 ≠
      Except.error ⟨404, "Coin not found or not in user's tracking list"⟩ ∧
    (remove_coin_endpoint exDB2 1 99).2 =
      Except.error ⟨404, "Coin not found or not in user's tracking list"⟩ := by
  refine ⟨by decide, rfl, ?_, rfl⟩
  intro h
  exact absurd (Except.error.inj h) (by decide)

/-! ## C1 -/

/-- C1 counterexample: in a store where the (1, 1) watchlist pair is
already present once, calling add again succeeds but leaves two
association rows for the pair, not one — the add is not idempotent. -/
theorem add_already_present_creates_duplicate :
    pairCount exDB1 1 1 = 1 ∧
    (add_coin_to_user exDB1 1 1).2 = some (1, 1) ∧
    pairCount (add_coin_to_user exDB1 1 1).1 1 1 = 2 ∧
    ¬ pairCount (add_coin_to_user exDB1 1 1).1 1 1 = 1 := by
  decide

/-- C1 amended: when the user and the coin both exist, add succeeds and
raises no error, but it always appends one more association row for the
pair — re-adding an already-present pair duplicates the membership
record instead of leaving exactly one. -/
theorem add_appends_second_record (db : DB) (user_id coin_id : Nat)
    (hu : (db.users.find? (fun u => u.id == user_id)).isSome)
    (hc : (db.coins.find? (fun c => c.id == coin_id)).isSome) :
    (add_coin_to_user db user_id coin_id).2 = some (user_id, coin_id) ∧
    pairCount (add_coin_to_user db user_id coin_id).1 user_id coin_id =
      pairCount db user_id coin_id + 1 := by
  obtain ⟨u, hu⟩ := Option.isSome_iff_exists.mp hu
  obtain ⟨c, hc⟩ := Option.isSome_iff_exists.mp hc
  have hui : u.id = user_id := by
    have := List.find?_some hu
    simpa using this
  have hci : c.id = coin_id := by
    have := List.find?_some hc
    simpa using this
  unfold add_coin_to_user
  rw [hu, hc]
  refine ⟨rfl, ?_⟩
  unfold pairCount
  simp [List.filter_append, hui, hci]

/-- Witness for C1's amended statement: applied to the store where the
pair is already present once, so the count reaches 2. -/
theorem add_appends_second_record_witness :
    ((exDB1.users.find? (fun u => u.id == 1)).isSome) ∧
    ((exDB1.coins.find? (fun c => c.id == 1)).isSome) ∧
    ((add_coin_to_user exDB1 1 1).2 = some (1, 1) ∧
     pairCount (add_coin_to_user exDB1 1 1).1 1 1 = pairCount exDB1 1 1 + 1) :=
  ⟨by decide, by decide,
   add_appends_second_record exDB1 1 1 (by decide) (by decide)⟩

/-! ## C8 -/

/-- Store for the C8 witness: Bitcoin with three observations inserted
at timestamps 1 < 2 < 3. -/
def exDB8 : DB :=
  ⟨[], [⟨1, "Bitcoin", "btc"⟩], [],
   [⟨1, 1, 100, none, none, none, 1⟩,
    ⟨2, 1, 200, none, none, none, 2⟩,
    ⟨3, 1, 300, none, none, none, 3⟩]⟩

/-- C8: for a known coin with a non-empty ledger, the history is
non-empty, contains exactly the coin's observations, and is ordered
newest-first by timestamp. -/
theorem history_newest_first (db : DB) (coin_name : String) (coin : CoinRow)
    (hcoin : get_coin_by_name db coin_name = some coin)
    (hne : rowsForCoin db coin.id ≠ []) :
    get_price_history db coin_name ≠ [] ∧
    List.Perm (get_price_history db coin_name) (rowsForCoin db coin.id) ∧
    List.Sorted tsGe (get_price_history db coin_name) := by
  have hperm : List.Perm (orderByTimestampDesc (rowsForCoin db coin.id))
      (rowsForCoin db coin.id) :=
    List.perm_insertionSort tsGe (rowsForCoin db coin.id)
  have hh : get_price_history db coin_name =
      orderByTimestampDesc (rowsForCoin db coin.id) := by
    unfold get_price_history
    rw [hcoin]
  rw [hh]
  refine ⟨?_, hperm, List.sorted_insertionSort tsGe (rowsForCoin db coin.id)⟩
  intro h0
  apply hne
  have hlen := hperm.length_eq
  rw [h0] at hlen
  exact List.eq_nil_of_length_eq_zero hlen.symm

/-- Witness for C8: the three Bitcoin observations with timestamps
1 < 2 < 3 come back exactly in the order [T3, T2, T1]. -/
theorem history_newest_first_witness :
    get_coin_by_name exDB8 "Bitcoin" = some ⟨1, "Bitcoin", "btc"⟩ ∧
    rowsForCoin exDB8 1 ≠ [] ∧
    (get_price_history exDB8 "Bitcoin" ≠ [] ∧
     List.Perm (get_price_history exDB8 "Bitcoin") (rowsForCoin exDB8 1) ∧
     List.Sorted tsGe (get_price_history exDB8 "Bitcoin")) ∧
    get_price_history exDB8 "Bitcoin" =
      [⟨3, 1, 300, none, none, none, 3⟩,
       ⟨2, 1, 200, none, none, none, 2⟩,
       ⟨1, 1, 100, none, none, none, 1⟩] :=
  ⟨by decide, by decide,
   history_newest_first exDB8 "Bitcoin" ⟨1, "Bitcoin", "btc"⟩ (by decide)
     (by decide),
   by decide⟩

/-! ## C9 -/

/-- Store for C9: one coin whose two observations share the greatest
timestamp. -/
def exDB9 : DB :=
  ⟨[], [⟨1, "Bitcoin", "btc"⟩], [],
   [⟨1, 1, 100, none, none, none, 5⟩,
    ⟨2, 1, 105, none, none, none, 5⟩]⟩

/-- C9 counterexample: the per-coin query
`order_by(timestamp.desc()).first()` has no secondary ordering key, so
every row attaining the greatest timestamp is an admissible result; in
this store two distinct rows tie, hence the admissible-result set is
not a singleton and the code fixes no single deterministic
observation. -/
theorem latest_tie_no_deterministic_pick :
    (latestCandidates exDB9 1).length = 2 ∧
    ¬ (latestCandidates exDB9 1).length ≤ 1 ∧
    (latestCandidates exDB9 1).Nodup := by
  decide

/-- C9 amended: for each known coin with at least one observation,
`get_latest_prices` reports an observation attaining the greatest
timestamp; but when several observations share that greatest timestamp
the query specifies no deterministic choice among them (every maximal
row is admissible). -/
theorem latest_attains_greatest_timestamp (db : DB) (coin : CoinRow)
    (hmem : coin ∈ db.coins) (hne : rowsForCoin db coin.id ≠ []) :
    ∃ r, r ∈ rowsForCoin db coin.id ∧
      (∀ s ∈ rowsForCoin db coin.id, s.timestamp ≤ r.timestamp) ∧
      r ∈ latestCandidates db coin.id ∧
      (⟨coin.name, coin.symbol, r.price, r.timestamp⟩ : LatestEntry) ∈
        get_latest_prices db := by
  have hperm : List.Perm (orderByTimestampDesc (rowsForCoin db coin.id))
      (rowsForCoin db coin.id) :=
    List.perm_insertionSort tsGe (rowsForCoin db coin.id)
  have hsorted : List.Sorted tsGe (orderByTimestampDesc (rowsForCoin db coin.id)) :=
    List.sorted_insertionSort tsGe (rowsForCoin db coin.id)
  cases hl : orderByTimestampDesc (rowsForCoin db coin.id) with
  | nil =>
    exfalso
    apply hne
    have hlen := hperm.length_eq
    rw [hl] at hlen
    exact List.eq_nil_of_length_eq_zero hlen.symm
  | cons h t =>
    have hmax : ∀ s ∈ rowsForCoin db coin.id, s.timestamp ≤ h.timestamp := by
      intro s hs
      have hs2 : s ∈ orderByTimestampDesc (rowsForCoin db coin.id) :=
        hperm.mem_iff.mpr hs
      rw [hl] at hs2
      rcases List.mem_cons.mp hs2 with h1 | h1
      · rw [h1]
      · rw [hl] at hsorted
        exact (List.sorted_cons.mp hsorted).1 s h1
    have hhead : h ∈ rowsForCoin db coin.id := by
      apply hperm.mem_iff.mp
      rw [hl]
      exact List.mem_cons_self h t
    refine ⟨h, hhead, hmax, ?_, ?_⟩
    · unfold latestCandidates
      rw [List.mem_filter]
      refine ⟨hhead, ?_⟩
      rw [List.all_eq_true]
      intro s hs
      simpa using hmax s hs
    · apply List.mem_filterMap.mpr
      refine ⟨coin, hmem, ?_⟩
      rw [hl]
      rfl

/-- Witness for C9's amended statement at a concrete store with a tie:
the reported Bitcoin row attains the greatest timestamp 5. -/
theorem latest_attains_greatest_timestamp_witness :
    (⟨1, "Bitcoin", "btc"⟩ : CoinRow) ∈ exDB9.coins ∧
    rowsForCoin exDB9 1 ≠ [] ∧
    (∃ r, r ∈ rowsForCoin exDB9 1 ∧
      (∀ s ∈ rowsForCoin exDB9 1, s.timestamp ≤ r.timestamp) ∧
      r ∈ latestCandidates exDB9 1 ∧
      (⟨"Bitcoin", "btc", r.price, r.timestamp⟩ : LatestEntry) ∈
        get_latest_prices exDB9) :=
  ⟨by decide, by decide,
   latest_attains_greatest_timestamp exDB9 ⟨1, "Bitcoin", "btc"⟩ (by decide)
     (by decide)⟩

/-! ## C4: helper lemmas about the sync loop -/

/-- Every coin id in the catalog table is bounded by `maxCoinId`, so a
freshly assigned id is new. -/
theorem maxCoinId_ge (coins : List CoinRow) :
    ∀ c ∈ coins, c.id ≤ maxCoinId coins := by
  induction coins with
  | nil => intro c hc; cases hc
  | cons x xs ih =>
    intro c hc
    have hstep : maxCoinId (x :: xs) = max x.id (maxCoinId xs) := rfl
    rcases List.mem_cons.mp hc with h | h
    · rw [h, hstep]; exact Nat.le_max_left _ _
    · rw [hstep]; exact Nat.le_trans (ih c h) (Nat.le_max_right _ _)

/-- A catalog coin whose feed entry is unusable (missing, empty, or
without "usd") is skipped: no write, no result entry. -/
theorem syncCoin_skip (prices : FeedJson) (now : Nat) (db : DB) (c : CoinCfg)
    (h : usableEntry prices c.fid = false) :
    syncCoin prices now db c = (db, none) := by
  by_cases he : ((prices.lookup c.fid).getD []).isEmpty
  · unfold syncCoin
    simp [he]
  · have h2 : (((prices.lookup c.fid).getD []).lookup "usd").isSome = false := by
      unfold usableEntry at h
      simpa [he] using h
    have h3 : ((prices.lookup c.fid).getD []).lookup "usd" = none := by
      simpa [Option.isSome_iff_exists] using h2
    unfold syncCoin
    simp [he, h3]

/-- A catalog coin with a usable feed entry is processed: the coin row
is found or freshly created, exactly one price row with the feed's usd
price and the current timestamp is appended, the other tables are
untouched, and the result entry carries name, symbol, price and
timestamp. -/
theorem syncCoin_processed (prices : FeedJson) (now : Nat) (db : DB)
    (c : CoinCfg) (h : usableEntry prices c.fid = true) :
    ∃ coin : CoinRow, coin.name = c.name ∧
      ((get_coin_by_name db c.name = some coin ∧
        (syncCoin prices now db c).1.coins = db.coins) ∨
       (get_coin_by_name db c.name = none ∧
        coin = ⟨maxCoinId db.coins + 1, c.name, c.symbol⟩ ∧
        (syncCoin prices now db c).1.coins = db.coins ++ [coin])) ∧
      (syncCoin prices now db c).1.users = db.users ∧
      (syncCoin prices now db c).1.user_coins = db.user_coins ∧
      (syncCoin prices now db c).1.price_history =
        db.price_history ++
          [⟨freshPriceId db, coin.id, usdOf prices c.fid, none, none, none,
            now⟩] ∧
      (syncCoin prices now db c).2 =
        some ⟨c.name, c.symbol, usdOf prices c.fid, now⟩ := by
  unfold usableEntry at h
  rw [Bool.and_eq_true] at h
  obtain ⟨h1, h2⟩ := h
  have he : ((prices.lookup c.fid).getD []).isEmpty = false := by
    simpa using h1
  obtain ⟨p, hp⟩ := Option.isSome_iff_exists.mp h2
  have husd : usdOf prices c.fid = p := by
    unfold usdOf
    rw [hp]
    rfl
  cases hc : get_coin_by_name db c.name with
  | some coin =>
    have hname : coin.name = c.name := by
      unfold get_coin_by_name at hc
      have := List.find?_some hc
      simpa using this
    have hval : syncCoin prices now db c =
        ({ db with price_history := db.price_history ++
            [⟨freshPriceId db, coin.id, p, none, none, none, now⟩] },
         some ⟨c.name, c.symbol, p, now⟩) := by
      unfold syncCoin
      simp [he, hp, hc, add_price]
    refine ⟨coin, hname, Or.inl ⟨rfl, ?_⟩, ?_, ?_, ?_, ?_⟩ <;>
      simp [hval, husd]
  | none =>
    have hval : syncCoin prices now db c =
        ({ db with
            coins := db.coins ++ [⟨maxCoinId db.coins + 1, c.name, c.symbol⟩],
            price_history := db.price_history ++
              [⟨freshPriceId db, maxCoinId db.coins + 1, p, none, none, none,
                now⟩] },
         some ⟨c.name, c.symbol, p, now⟩) := by
      unfold syncCoin
      simp [he, hp, hc, create_coin, add_price, freshPriceId]
    refine ⟨⟨maxCoinId db.coins + 1, c.name, c.symbol⟩, rfl,
      Or.inr ⟨rfl, rfl, ?_⟩, ?_, ?_, ?_, ?_⟩ <;>
      simp [hval, husd]

/-- The database threaded through one loop step is the first component
of `syncCoin`, whether or not the coin was skipped. -/
theorem syncLoop_cons_fst (prices : FeedJson) (now : Nat) (db : DB)
    (c : CoinCfg) (cs : List CoinCfg) :
    (syncLoop prices now db (c :: cs)).1 =
      (syncLoop prices now (syncCoin prices now db c).1 cs).1 := by
  simp only [syncLoop]
  rcases syncCoin prices now db c with ⟨db1, _ | e⟩ <;> rfl

/-- The result entries of the loop: one per catalog coin with a usable
feed entry, in catalog order, carrying the coin's configured name and
symbol, the feed's usd price, and the current timestamp. -/
theorem syncLoop_entries (prices : FeedJson) (now : Nat) :
    ∀ (cs : List CoinCfg) (db : DB),
      (syncLoop prices now db cs).2 =
        (cs.filter (fun c => usableEntry prices c.fid)).map
          (fun c => ⟨c.name, c.symbol, usdOf prices c.fid, now⟩) := by
  intro cs
  induction cs with
  | nil => intro db; rfl
  | cons c cs ih =>
    intro db
    by_cases h : usableEntry prices c.fid = true
    · obtain ⟨coin, _, _, _, _, _, hsnd⟩ := syncCoin_processed prices now db c h
      unfold syncLoop
      cases hsc : syncCoin prices now db c with
      | mk db1 e =>
        rw [hsc] at hsnd
        simp only at hsnd
        subst hsnd
        simp [List.filter_cons, h, ih db1]
    · have hb : usableEntry prices c.fid = false := by simpa using h
      unfold syncLoop
      rw [syncCoin_skip prices now db c hb]
      simp [List.filter_cons, hb, ih db]

/-- The ledger after the loop: the old rows followed by one appended
row per processed catalog coin, carrying the feed's usd price and the
current timestamp. -/
theorem syncLoop_ledger (prices : FeedJson) (now : Nat) :
    ∀ (cs : List CoinCfg) (db : DB),
      (syncLoop prices now db cs).1.price_history.map
          (fun r => (r.price, r.timestamp)) =
        db.price_history.map (fun r => (r.price, r.timestamp)) ++
          (cs.filter (fun c => usableEntry prices c.fid)).map
            (fun c => (usdOf prices c.fid, now)) := by
  intro cs
  induction cs with
  | nil => intro db; simp [syncLoop]
  | cons c cs ih =>
    intro db
    rw [syncLoop_cons_fst]
    by_cases h : usableEntry prices c.fid = true
    · obtain ⟨coin, _, _, _, _, hph, _⟩ := syncCoin_processed prices now db c h
      rw [ih, hph]
      simp [List.filter_cons, h]
    · have hb : usableEntry prices c.fid = false := by simpa using h
      rw [syncCoin_skip prices now db c hb, ih]
      simp [List.filter_cons, hb]

/-- The loop never deletes a catalog row. -/
theorem syncCoin_coins_mono (prices : FeedJson) (now : Nat) (db : DB)
    (c : CoinCfg) (x : CoinRow) (hx : x ∈ db.coins) :
    x ∈ (syncCoin prices now db c).1.coins := by
  by_cases h : usableEntry prices c.fid = true
  · obtain ⟨coin, _, hor, _⟩ := syncCoin_processed prices now db c h
    rcases hor with ⟨_, hcoins⟩ | ⟨_, _, hcoins⟩
    · rw [hcoins]; exact hx
    · rw [hcoins]; exact List.mem_append_left _ hx
  · rw [syncCoin_skip prices now db c (by simpa using h)]
    exact hx

/-- The whole loop never deletes a catalog row. -/
theorem syncLoop_coins_mono (prices : FeedJson) (now : Nat) :
    ∀ (cs : List CoinCfg) (db : DB) (x : CoinRow), x ∈ db.coins →
      x ∈ (syncLoop prices now db cs).1.coins := by
  intro cs
  induction cs with
  | nil => intro db x hx; exact hx
  | cons c cs ih =>
    intro db x hx
    rw [syncLoop_cons_fst]
    exact ih _ x (syncCoin_coins_mono prices now db c x hx)

/-- Every processed catalog coin ends up in the catalog table: the loop
upserts it. -/
theorem syncLoop_upserts (prices : FeedJson) (now : Nat) :
    ∀ (cs : List CoinCfg) (db : DB) (c : CoinCfg), c ∈ cs →
      usableEntry prices c.fid = true →
      ∃ coin ∈ (syncLoop prices now db cs).1.coins, coin.name = c.name := by
  intro cs
  induction cs with
  | nil => intro db c hc; cases hc
  | cons c0 cs ih =>
    intro db c hc h
    rw [syncLoop_cons_fst]
    rcases List.mem_cons.mp hc with rfl | hmem
    · obtain ⟨coin, hname, hor, _⟩ := syncCoin_processed prices now db c h
      refine ⟨coin, ?_, hname⟩
      apply syncLoop_coins_mono
      rcases hor with ⟨hfound, hcoins⟩ | ⟨_, _, hcoins⟩
      · rw [hcoins]
        unfold get_coin_by_name at hfound
        exact List.mem_of_find?_eq_some hfound
      · rw [hcoins]
        exact List.mem_append_right _ (List.mem_singleton_self coin)
    · exact ih _ c hmem h

/-- A coin of the store that no processed catalog coin names keeps its
ledger rows unchanged by the loop: a skipped coin gets no write.  The
two Nodup hypotheses are the unique constraints of src/models.py on
`Coin.name` and on the primary key `Coin.id`. -/
theorem syncLoop_untouched (prices : FeedJson) (now : Nat) :
    ∀ (cs : List CoinCfg) (db : DB) (coin : CoinRow),
      coin ∈ db.coins →
      (db.coins.map (fun c => c.name)).Nodup →
      (db.coins.map (fun c => c.id)).Nodup →
      (∀ c ∈ cs, usableEntry prices c.fid = true → c.name ≠ coin.name) →
      rowsForCoin (syncLoop prices now db cs).1 coin.id =
        rowsForCoin db coin.id := by
  intro cs
  induction cs with
  | nil => intro db coin _ _ _ _; rfl
  | cons c cs ih =>
    intro db coin hmem hnames hids hnot
    rw [syncLoop_cons_fst]
    by_cases h : usableEntry prices c.fid = true
    · obtain ⟨pcoin, hpname, hor, _, _, hph, _⟩ :=
        syncCoin_processed prices now db c h
      have hcname : c.name ≠ coin.name := hnot c (List.mem_cons_self c cs) h
      have hnot1 : ∀ c1 ∈ cs, usableEntry prices c1.fid = true →
          c1.name ≠ coin.name :=
        fun c1 hc1 => hnot c1 (List.mem_cons_of_mem c hc1)
      rcases hor with ⟨hfound, hcoins⟩ | ⟨hnone, hpc, hcoins⟩
      · -- the processed coin already existed; by primary-key uniqueness
        -- its id differs from the skipped coin's id
        have hpmem : pcoin ∈ db.coins := by
          unfold get_coin_by_name at hfound
          exact List.mem_of_find?_eq_some hfound
        have hne : pcoin.id ≠ coin.id := by
          intro hEq
          have hpe : pcoin = coin :=
            List.inj_on_of_nodup_map hids hpmem hmem hEq
          exact hcname (hpname ▸ congrArg CoinRow.name hpe)
        have hrows1 : rowsForCoin (syncCoin prices now db c).1 coin.id =
            rowsForCoin db coin.id := by
          unfold rowsForCoin
          rw [hph, List.filter_append]
          simp [hne]
        rw [ih (syncCoin prices now db c).1 coin (by rw [hcoins]; exact hmem)
          (by rw [hcoins]; exact hnames) (by rw [hcoins]; exact hids) hnot1]
        exact hrows1
      · -- the processed coin is new; its fresh id exceeds every existing id
        have hle : coin.id ≤ maxCoinId db.coins := maxCoinId_ge db.coins coin hmem
        have hne : pcoin.id ≠ coin.id := by
          rw [hpc]
          intro hEq
          simp at hEq
          omega
        have hnew : c.name ∉ db.coins.map (fun c0 => c0.name) := by
          unfold get_coin_by_name at hnone
          rw [List.find?_eq_none] at hnone
          intro hmm
          obtain ⟨c0, hc0, hc0n⟩ := List.mem_map.mp hmm
          exact hnone c0 hc0 (by simp [hc0n])
        have hidnew : maxCoinId db.coins + 1 ∉ db.coins.map (fun c0 => c0.id) := by
          intro hmm
          obtain ⟨c0, hc0, hc0n⟩ := List.mem_map.mp hmm
          have := maxCoinId_ge db.coins c0 hc0
          omega
        have hnames1 : ((syncCoin prices now db c).1.coins.map
            (fun c0 => c0.name)).Nodup := by
          rw [hcoins, hpc]
          simp [List.nodup_append, hnames, hnew]
        have hids1 : ((syncCoin prices now db c).1.coins.map
            (fun c0 => c0.id)).Nodup := by
          rw [hcoins, hpc]
          simp [List.nodup_append, hids, hidnew]
        have hrows1 : rowsForCoin (syncCoin prices now db c).1 coin.id =
            rowsForCoin db coin.id := by
          unfold rowsForCoin
          rw [hph, List.filter_append]
          simp [hne]
        rw [ih (syncCoin prices now db c).1 coin
          (by rw [hcoins]; exact List.mem_append_left _ hmem) hnames1 hids1 hnot1]
        exact hrows1
    · have hb : usableEntry prices c.fid = false := by simpa using h
      rw [syncCoin_skip prices now db c hb]
      exact ih db coin hmem hnames hids
        (fun c1 hc1 => hnot c1 (List.mem_cons_of_mem c hc1))

/-- C4: on a 200 feed response, POST /update reports status "success"
with one result entry per catalog coin whose feed entry is usable (in
catalog order, with the feed's usd price and the sync timestamp) and a
count equal to the number of entries; the ledger grows by exactly those
rows; every processed coin is upserted into the catalog; and a store
coin not named by any processed catalog coin keeps its ledger rows
unchanged (skipped coins get no write).  The Nodup hypotheses are the
unique constraints on `Coin.name` and `Coin.id`. -/
theorem sync_success_per_coin (db : DB) (response : FeedResponse) (now : Nat)
    (hstatus : response.status_code = 200)
    (hnames : (db.coins.map (fun c => c.name)).Nodup)
    (hids : (db.coins.map (fun c => c.id)).Nodup) :
    (update_prices db response now).2 =
      Except.ok ⟨"success", updatedEntries response.json now,
        (updatedEntries response.json now).length⟩ ∧
    (update_prices db response now).1.price_history.map
        (fun r => (r.price, r.timestamp)) =
      db.price_history.map (fun r => (r.price, r.timestamp)) ++
        (updatedEntries response.json now).map
          (fun e => (e.price, e.timestamp)) ∧
    (update_prices db response now).1.price_history.length =
      db.price_history.length + (updatedEntries response.json now).length ∧
    (∀ c ∈ COINS, usableEntry response.json c.fid = true →
      ∃ coin ∈ (update_prices db response now).1.coins,
        coin.name = c.name) ∧
    (∀ coin ∈ db.coins,
      (∀ c ∈ COINS, usableEntry response.json c.fid = true →
        c.name ≠ coin.name) →
      rowsForCoin (update_prices db response now).1 coin.id =
        rowsForCoin db coin.id) := by
  have hup1 : (update_prices db response now).1 =
      (syncLoop response.json now db COINS).1 := by
    unfold update_prices
    simp [hstatus]
  have hup2 : (update_prices db response now).2 =
      Except.ok ⟨"success", (syncLoop response.json now db COINS).2,
        (syncLoop response.json now db COINS).2.length⟩ := by
    unfold update_prices
    simp [hstatus]
  have hent : (syncLoop response.json now db COINS).2 =
      updatedEntries response.json now := by
    rw [syncLoop_entries response.json now COINS db]
    rfl
  refine ⟨?_, ?_, ?_, ?_, ?_⟩
  · rw [hup2, hent]
  · rw [hup1, syncLoop_ledger response.json now COINS db]
    unfold updatedEntries
    rw [List.map_map]
    rfl
  · have hmap := syncLoop_ledger response.json now COINS db
    have hlen := congrArg List.length hmap
    simp only [List.length_map, List.length_append] at hlen
    rw [hup1, hlen]
    unfold updatedEntries
    simp
  · intro c hc h
    rw [hup1]
    exact syncLoop_upserts response.json now COINS db c hc h
  · intro coin hmem hnot
    rw [hup1]
    exact syncLoop_untouched response.json now COINS db coin hmem hnames
      hids hnot

/-- Store for the C4 witness: catalog rows for Bitcoin and Ethereum,
Ethereum already has one ledger row. -/
def exDB4 : DB :=
  ⟨[], [⟨1, "Bitcoin", "btc"⟩, ⟨2, "Ethereum", "eth"⟩], [],
   [⟨1, 2, 3000, none, none, none, 1⟩]⟩

/-- The feed response of the C4 witness: 200, with a usd quote for
bitcoin only. -/
def exResp4 : FeedResponse :=
  ⟨200, "", [("bitcoin", [("usd", 50000)])]⟩

/-- Witness for C4: with a feed quoting only bitcoin, the sync reports
count 1 with the single Bitcoin entry, appends exactly that row, and
Ethereum's ledger is unchanged. -/
theorem sync_success_per_coin_witness :
    (exResp4.status_code = 200 ∧
     (exDB4.coins.map (fun c => c.name)).Nodup ∧
     (exDB4.coins.map (fun c => c.id)).Nodup) ∧
    (update_prices exDB4 exResp4 2).2 =
      Except.ok ⟨"success", updatedEntries exResp4.json 2,
        (updatedEntries exResp4.json 2).length⟩ ∧
    updatedEntries exResp4.json 2 = [⟨"Bitcoin", "btc", 50000, 2⟩] ∧
    (update_prices exDB4 exResp4 2).1.price_history.length =
      exDB4.price_history.length + (updatedEntries exResp4.json 2).length ∧
    rowsForCoin (update_prices exDB4 exResp4 2).1 2 = rowsForCoin exDB4 2 :=
  ⟨⟨rfl, by decide, by decide⟩,
   (sync_success_per_coin exDB4 exResp4 2 rfl (by decide) (by decide)).1,
   by decide,
   (sync_success_per_coin exDB4 exResp4 2 rfl (by decide) (by decide)).2.2.1,
   (sync_success_per_coin exDB4 exResp4 2 rfl (by decide) (by decide)).2.2.2.2
     ⟨2, "Ethereum", "eth"⟩ (by decide) (by decide)⟩
